import Mathlib

/-!
Verification development for the game-session controller of
`src/chess_ai_agent.py`.

The embedding models the module-level state of the script (`board`,
`move_history`, `history_pointer`, `selected_square`,
`legal_moves_for_sel`, `last_player_move_time`, `ai_is_thinking`) and the
operations that mutate it: `update_board_from_history`,
`push_move_and_record`, `ai_make_move`, the per-frame AI check of the main
loop, and the keyboard/mouse event handlers of `main`.

The `python-chess` library (`chess.Board`) is an external rules engine
from the controller's point of view.  A `chess.Board` is only ever built
by pushing a sequence of moves onto the initial position, so a board is
represented by that sequence (`boardMoves`), and the library queries used
by the script (`is_game_over`, `legal_moves`, `turn`, `piece_at`) are
collected in an `Oracle` record, a parameter of every operation.

Timestamps (`time.time()`) are rational numbers; the frame check
`time.time() - last_player_move_time >= 1` is embedded verbatim over ℚ.
The random fallback `random.choice(list(board.legal_moves))` is embedded
as selection by an arbitrary index `i` into the legal-move list, `none`
when the list is empty (the `IndexError` branch).
-/

/-- BOARD_SIZE constant of the script (window is 800 x 860 pixels). -/
def BOARD_SIZE : Nat := 800

/-- SQUARE_SIZE = BOARD_SIZE // 8. -/
def SQUARE_SIZE : Nat := BOARD_SIZE / 8

/-- chess.PAWN piece-type code in python-chess. -/
def PAWN : Nat := 1

/-- chess.QUEEN piece-type code in python-chess. -/
def QUEEN : Nat := 5

/-- A chess color (chess.WHITE / chess.BLACK). -/
inductive Side where
  | white
  | black
  deriving DecidableEq, Repr

/-- human_color = chess.WHITE: the script fixes the human side to White. -/
def human_color : Side := Side.white

/-- A chess.Move as the script builds it: origin square, destination
square, optional promotion piece type. Equality is structural. -/
structure Move where
  fromSq : Nat
  toSq : Nat
  promo : Option Nat
  deriving DecidableEq, Repr

/-- A chess.Piece as queried through piece_at: piece type and color. -/
structure Piece where
  piece_type : Nat
  color : Side
  deriving DecidableEq, Repr

/-- The slice of python-chess the script consults, as pure functions of
the sequence of moves pushed onto the initial position. -/
structure Oracle where
  isGameOver : List Move → Bool
  legalMoves : List Move → List Move
  turn : List Move → Side
  pieceAt : List Move → Nat → Option Piece

/-- The module-level mutable state of chess_ai_agent.py.  `boardMoves` is
the sequence of moves that has been pushed onto the `board` object since
the initial position (the board is only ever rebuilt by `chess.Board()`
plus pushes, or extended by a push, or cleared by `board.reset()`). -/
structure GameState where
  boardMoves : List Move
  move_history : List Move
  history_pointer : Nat
  selected_square : Option Nat
  legal_moves_for_sel : List Move
  last_player_move_time : Option ℚ
  ai_is_thinking : Bool
  deriving DecidableEq, Repr

/-- The state right after module initialisation: empty board, empty
history, pointer 0, nothing selected, no pending player-move timestamp. -/
def initialState : GameState :=
  ⟨[], [], 0, none, [], none, false⟩

/-- pixel_to_square: pygame pixel coordinates to a chess square index
(chess.square(col, rank) = rank * 8 + col).  Coordinates are natural
numbers (pygame reports window positions), so only the upper bounds of
the source's range check remain. -/
def pixel_to_square (mx my : Nat) : Option Nat :=
  if mx ≥ BOARD_SIZE ∨ my ≥ BOARD_SIZE then none
  else
    let col := mx / SQUARE_SIZE
    let row := my / SQUARE_SIZE
    let rank := 7 - row
    some (rank * 8 + col)

/-- update_board_from_history: board = chess.Board(); replay
move_history[:history_pointer]. -/
def update_board_from_history (s : GameState) : GameState :=
  { s with boardMoves := s.move_history.take s.history_pointer }

/-- push_move_and_record: board.push(move); move_history.append(move);
history_pointer = len(move_history). -/
def push_move_and_record (m : Move) (s : GameState) : GameState :=
  { s with
    boardMoves := s.boardMoves ++ [m]
    move_history := s.move_history ++ [m]
    history_pointer := s.move_history.length + 1 }

/-- random.choice over a concrete list, with the choice determined by an
arbitrary index `i`; `none` models the IndexError raised on an empty
sequence. -/
def randomChoice (i : Nat) (l : List Move) : Option Move :=
  l[i % l.length]?

/-- ai_make_move in random-fallback mode (engine is None, e.g. the engine
executable was not found or failed to start): early return when the game
is over, otherwise random.choice over the legal moves followed by
push_move_and_record; the IndexError branch falls into the exception
handler, which retries random.choice on the same empty list and then
passes, leaving the game state unchanged.  ai_is_thinking is set back to
False on every exit path past the early return. -/
def ai_make_move (o : Oracle) (i : Nat) (s : GameState) : GameState :=
  if o.isGameOver s.boardMoves then s
  else
    match randomChoice i (o.legalMoves s.boardMoves) with
    | some m => { push_move_and_record m s with ai_is_thinking := false }
    | none => { s with ai_is_thinking := false }

/-- The per-frame AI check at the top of the main loop: if the game is
not over, it is not the human's turn on the displayed board, a player
move timestamp is pending, at least one second has elapsed since it, and
the AI is not already thinking, make the AI move and clear the
timestamp. -/
def aiPhase (o : Oracle) (now : ℚ) (i : Nat) (s : GameState) : GameState :=
  if o.isGameOver s.boardMoves = false ∧ o.turn s.boardMoves ≠ human_color then
    match s.last_player_move_time with
    | some t =>
      if 1 ≤ now - t ∧ s.ai_is_thinking = false then
        { ai_make_move o i s with last_player_move_time := none }
      else s
    | none => s
  else s

/-- K_LEFT handler: step back one half-move when possible, rebuilding the
board from the shortened prefix; no-op at pointer 0. -/
def handleKeyLeft (s : GameState) : GameState :=
  if s.history_pointer > 0 then
    update_board_from_history { s with history_pointer := s.history_pointer - 1 }
  else s

/-- K_RIGHT handler: step forward one half-move when not already live;
no-op at the live position. -/
def handleKeyRight (s : GameState) : GameState :=
  if s.history_pointer < s.move_history.length then
    update_board_from_history { s with history_pointer := s.history_pointer + 1 }
  else s

/-- K_DOWN handler and the snap performed by the mouse handler: jump the
pointer to the live position and rebuild the board by replaying the whole
history. -/
def jumpToLive (s : GameState) : GameState :=
  update_board_from_history { s with history_pointer := s.move_history.length }

/-- K_r handler: board.reset(); clear history, pointer, selection and the
pending player-move timestamp. -/
def handleReset (s : GameState) : GameState :=
  { boardMoves := []
    move_history := []
    history_pointer := 0
    selected_square := none
    legal_moves_for_sel := []
    last_player_move_time := none
    ai_is_thinking := s.ai_is_thinking }

/-- The move the click handler constructs from a selected origin and a
clicked destination: the bare move if legal, otherwise — when the piece
on the origin square is a pawn and the queen-promotion variant is
legal — the queen promotion, otherwise the bare move (which will then
fail the legality test). -/
def constructedMove (o : Oracle) (b : List Move) (sel dst : Nat) : Move :=
  if (⟨sel, dst, none⟩ : Move) ∈ o.legalMoves b then ⟨sel, dst, none⟩
  else
    match o.pieceAt b sel with
    | some p =>
      if p.piece_type = PAWN ∧ (⟨sel, dst, some QUEEN⟩ : Move) ∈ o.legalMoves b then
        ⟨sel, dst, some QUEEN⟩
      else ⟨sel, dst, none⟩
    | none => ⟨sel, dst, none⟩

/-- The part of the MOUSEBUTTONDOWN handler that runs after the
jump-to-live snap: ignore clicks when the game is over or outside the
board; with no selection, select a human piece when it is the human's
turn and record its legal moves; with a selection, construct the move
(queen-promotion defaulting included), push it when it is legal and it is
the human's turn (recording the player-move timestamp), otherwise
deselect. -/
def handleMouseAfterSnap (o : Oracle) (now : ℚ) (mx my : Nat) (s : GameState) :
    GameState :=
  if o.isGameOver s.boardMoves then s
  else
    match pixel_to_square mx my with
    | none => s
    | some clicked =>
      match s.selected_square with
      | none =>
        match o.pieceAt s.boardMoves clicked with
        | some p =>
          if p.color = human_color ∧ o.turn s.boardMoves = human_color then
            { s with
              selected_square := some clicked
              legal_moves_for_sel :=
                (o.legalMoves s.boardMoves).filter (fun mv => mv.fromSq == clicked) }
          else s
        | none => s
      | some sel =>
        if constructedMove o s.boardMoves sel clicked ∈ o.legalMoves s.boardMoves ∧
            o.turn s.boardMoves = human_color then
          { push_move_and_record (constructedMove o s.boardMoves sel clicked) s with
            selected_square := none
            legal_moves_for_sel := []
            last_player_move_time := some now }
        else
          { s with selected_square := none, legal_moves_for_sel := [] }

/-- The full MOUSEBUTTONDOWN handler: clicks below the board are ignored;
a click on the board first snaps to the live position when the view is
historical, then proceeds with selection / move submission. -/
def handleMouse (o : Oracle) (now : ℚ) (mx my : Nat) (s : GameState) : GameState :=
  if my ≥ BOARD_SIZE then s
  else
    handleMouseAfterSnap o now mx my
      (if s.history_pointer ≠ s.move_history.length then jumpToLive s else s)

/-- The user events the main loop dispatches on (QUIT only ends the
loop and touches no game state, so it is omitted). -/
inductive Event where
  | keyLeft
  | keyRight
  | keyDown
  | keyReset
  | mouseDown (mx my : Nat)
  deriving DecidableEq, Repr

/-- Event dispatch of the main loop. -/
def handleEvent (o : Oracle) (now : ℚ) (e : Event) (s : GameState) : GameState :=
  match e with
  | Event.keyLeft => handleKeyLeft s
  | Event.keyRight => handleKeyRight s
  | Event.keyDown => jumpToLive s
  | Event.keyReset => handleReset s
  | Event.mouseDown mx my => handleMouse o now mx my s

/-- Difficulty clamping: level = max(1, min(20, level)). -/
def clampLevel (n : Int) : Int := max 1 (min 20 n)

/-- The configured difficulty: `none` models both an empty input line
(`input() or 5`) and an unparsable one (the `except` branch), which
default to 5 before clamping. -/
def readLevel (raw : Option Int) : Int :=
  clampLevel (match raw with | some n => n | none => 5)

/-- time_per_move = max(0.05, 0.05 + level * 0.07), in seconds over ℚ. -/
def time_per_move (lvl : Int) : ℚ :=
  max (5 / 100 : ℚ) ((5 / 100 : ℚ) + (lvl : ℚ) * (7 / 100 : ℚ))

/-- A concrete instantiation of the rules-engine interface used to run
the controller on explicit inputs: the game never ends, each position has
exactly one legal move (from square `len` to square `len + 8`, no
promotion), the side to move alternates starting from White, and the
square `len` holds a pawn of the side to move. -/
def demoOracle : Oracle :=
  { isGameOver := fun _ => false
    legalMoves := fun p => [⟨p.length, p.length + 8, none⟩]
    turn := fun p => if p.length % 2 = 0 then Side.white else Side.black
    pieceAt := fun p sq =>
      if sq = p.length then
        some ⟨PAWN, if p.length % 2 = 0 then Side.white else Side.black⟩
      else none }

/-- Frame at time 0: the human clicks square a1 (pixel (0, 700)),
selecting the piece there. -/
def demoS1 : GameState :=
  handleEvent demoOracle 0 (Event.mouseDown 0 700) (aiPhase demoOracle 0 0 initialState)

/-- Still at time 0: the human clicks square a2 (pixel (0, 600)), playing
the move 0→8. -/
def demoS2 : GameState :=
  handleEvent demoOracle 0 (Event.mouseDown 0 600) demoS1

/-- Frame at time 1: the per-frame AI check fires (one second elapsed)
and the AI plays 1→9. -/
def demoS3 : GameState :=
  aiPhase demoOracle 1 0 demoS2

/-- The human clicks square c1 (pixel (200, 700)), selecting. -/
def demoS4 : GameState :=
  handleEvent demoOracle 1 (Event.mouseDown 200 700) demoS3

/-- The human clicks square c2 (pixel (200, 600)), playing 2→10; the
player-move timestamp is set to 1. -/
def demoS5 : GameState :=
  handleEvent demoOracle 1 (Event.mouseDown 200 600) demoS4

/-- The human presses the left arrow: pointer 3 → 2. -/
def demoS6 : GameState :=
  handleEvent demoOracle 1 Event.keyLeft demoS5

/-- The human presses the left arrow again: pointer 2 → 1, a historical
view of the three-entry ledger. -/
def demoS7 : GameState :=
  handleEvent demoOracle 1 Event.keyLeft demoS6

/-- Frame at time 2: the per-frame AI check runs on the historical
view. -/
def demoS8 : GameState :=
  aiPhase demoOracle 2 0 demoS7

lemma demoS1_val :
    demoS1 = ⟨[], [], 0, some 0, [⟨0, 8, none⟩], none, false⟩ := by
  norm_num [demoS1, initialState, aiPhase, handleEvent, handleMouse,
    handleMouseAfterSnap, pixel_to_square, BOARD_SIZE, SQUARE_SIZE, demoOracle,
    human_color, constructedMove, push_move_and_record, jumpToLive,
    update_board_from_history, PAWN, QUEEN, ai_make_move, randomChoice,
    List.filter]

lemma demoS2_val :
    demoS2 = ⟨[⟨0, 8, none⟩], [⟨0, 8, none⟩], 1, none, [], some 0, false⟩ := by
  rw [demoS2, demoS1_val]
  norm_num [handleEvent, handleMouse, handleMouseAfterSnap, pixel_to_square,
    BOARD_SIZE, SQUARE_SIZE, demoOracle, human_color, constructedMove,
    push_move_and_record, jumpToLive, update_board_from_history, PAWN, QUEEN]

lemma demoS3_val :
    demoS3 = ⟨[⟨0, 8, none⟩, ⟨1, 9, none⟩], [⟨0, 8, none⟩, ⟨1, 9, none⟩],
      2, none, [], none, false⟩ := by
  rw [demoS3, demoS2_val]
  norm_num [aiPhase, ai_make_move, randomChoice, demoOracle, human_color,
    push_move_and_record]
  decide

lemma demoS4_val :
    demoS4 = ⟨[⟨0, 8, none⟩, ⟨1, 9, none⟩], [⟨0, 8, none⟩, ⟨1, 9, none⟩],
      2, some 2, [⟨2, 10, none⟩], none, false⟩ := by
  rw [demoS4, demoS3_val]
  norm_num [handleEvent, handleMouse, handleMouseAfterSnap, pixel_to_square,
    BOARD_SIZE, SQUARE_SIZE, demoOracle, human_color, constructedMove,
    push_move_and_record, jumpToLive, update_board_from_history, PAWN, QUEEN,
    List.filter]

lemma demoS5_val :
    demoS5 = ⟨[⟨0, 8, none⟩, ⟨1, 9, none⟩, ⟨2, 10, none⟩],
      [⟨0, 8, none⟩, ⟨1, 9, none⟩, ⟨2, 10, none⟩], 3, none, [], some 1, false⟩ := by
  rw [demoS5, demoS4_val]
  norm_num [handleEvent, handleMouse, handleMouseAfterSnap, pixel_to_square,
    BOARD_SIZE, SQUARE_SIZE, demoOracle, human_color, constructedMove,
    push_move_and_record, jumpToLive, update_board_from_history, PAWN, QUEEN]

lemma demoS6_val :
    demoS6 = ⟨[⟨0, 8, none⟩, ⟨1, 9, none⟩],
      [⟨0, 8, none⟩, ⟨1, 9, none⟩, ⟨2, 10, none⟩], 2, none, [], some 1, false⟩ := by
  rw [demoS6, demoS5_val]
  norm_num [handleEvent, handleKeyLeft, update_board_from_history]

lemma demoS7_val :
    demoS7 = ⟨[⟨0, 8, none⟩],
      [⟨0, 8, none⟩, ⟨1, 9, none⟩, ⟨2, 10, none⟩], 1, none, [], some 1, false⟩ := by
  rw [demoS7, demoS6_val]
  norm_num [handleEvent, handleKeyLeft, update_board_from_history]

lemma demoS8_val :
    demoS8 = ⟨[⟨0, 8, none⟩, ⟨1, 9, none⟩],
      [⟨0, 8, none⟩, ⟨1, 9, none⟩, ⟨2, 10, none⟩, ⟨1, 9, none⟩],
      4, none, [], none, false⟩ := by
  rw [demoS8, demoS7_val]
  norm_num [aiPhase, ai_make_move, randomChoice, demoOracle, human_color,
    push_move_and_record]
  decide

/-- Claim C1: an engine/fallback move result arriving while the session
is not live (viewPointer < len(entries)), or whose ledger-length tag no
longer matches, must be silently discarded, leaving the ledger unchanged.
The code violates the liveness half: in the reachable state `demoS7`
(human played 0→8, AI answered 1→9, human played 2→10 and then stepped
back twice within the one-second deliberation delay) the session is not
live — the pointer is 1 with three ledger entries — and yet the AI check
of the next frame applies its move, computed from the one-move historical
prefix, appending it to the three-entry ledger instead of discarding
it. -/
theorem C1_stale_engine_result_applied :
    demoS7.history_pointer < demoS7.move_history.length ∧
    demoS8 = aiPhase demoOracle 2 0 demoS7 ∧
    demoS8.move_history = demoS7.move_history ++ [⟨1, 9, none⟩] ∧
    demoS8.history_pointer = 4 := by
  refine ⟨?_, rfl, ?_, ?_⟩
  · rw [demoS7_val]; decide
  · rw [demoS7_val, demoS8_val]; decide
  · rw [demoS8_val]

/-- Claim C3: an engine move request should be issued only after the
one-second delay, and only while the session is live and the game not
terminal.  The code checks the delay and the terminal verdict but never
checks liveness: in the reachable historical-view state `demoS7`
(pointer 1 of 3 entries, displayed position not terminal, delay elapsed)
the AI check issues and applies an engine move instead of doing
nothing. -/
theorem C3_engine_move_issued_while_not_live :
    demoS7.history_pointer < demoS7.move_history.length ∧
    demoOracle.isGameOver demoS7.boardMoves = false ∧
    (aiPhase demoOracle 2 0 demoS7).move_history ≠ demoS7.move_history := by
  have h8 : aiPhase demoOracle 2 0 demoS7 = demoS8 := rfl
  rw [h8, demoS8_val, demoS7_val]
  refine ⟨by decide, rfl, by decide⟩

lemma jumpToLive_history (s : GameState) :
    (jumpToLive s).move_history = s.move_history := rfl

lemma jumpToLive_pointer (s : GameState) :
    (jumpToLive s).history_pointer = s.move_history.length := rfl

lemma jumpToLive_board (s : GameState) :
    (jumpToLive s).boardMoves = s.move_history := by
  simp [jumpToLive, update_board_from_history]

lemma jumpToLive_selected (s : GameState) :
    (jumpToLive s).selected_square = s.selected_square := rfl

lemma push_history (m : Move) (s : GameState) :
    (push_move_and_record m s).move_history = s.move_history ++ [m] := rfl

lemma push_pointer (m : Move) (s : GameState) :
    (push_move_and_record m s).history_pointer = s.move_history.length + 1 := rfl

lemma push_board (m : Move) (s : GameState) :
    (push_move_and_record m s).boardMoves = s.boardMoves ++ [m] := rfl

/-- Case analysis for the post-snap part of the click handler: either the
ledger fields (history, pointer, board) are all untouched — selection and
deselection only change `selected_square` / `legal_moves_for_sel` — or a
selection existed, the constructed move was legal on the displayed board,
it was the human's turn, and the move was pushed. -/
lemma mouseAfterSnap_cases (o : Oracle) (now : ℚ) (mx my : Nat) (s : GameState) :
    ((handleMouseAfterSnap o now mx my s).move_history = s.move_history ∧
     (handleMouseAfterSnap o now mx my s).history_pointer = s.history_pointer ∧
     (handleMouseAfterSnap o now mx my s).boardMoves = s.boardMoves) ∨
    (∃ sel clicked,
      s.selected_square = some sel ∧
      pixel_to_square mx my = some clicked ∧
      o.isGameOver s.boardMoves = false ∧
      constructedMove o s.boardMoves sel clicked ∈ o.legalMoves s.boardMoves ∧
      o.turn s.boardMoves = human_color ∧
      handleMouseAfterSnap o now mx my s =
        { push_move_and_record (constructedMove o s.boardMoves sel clicked) s with
          selected_square := none
          legal_moves_for_sel := []
          last_player_move_time := some now }) := by
  cases hgo : o.isGameOver s.boardMoves with
  | true =>
    left
    simp [handleMouseAfterSnap, hgo]
  | false =>
    cases hpix : pixel_to_square mx my with
    | none =>
      left
      simp [handleMouseAfterSnap, hgo, hpix]
    | some clicked =>
      cases hsel : s.selected_square with
      | none =>
        cases hp : o.pieceAt s.boardMoves clicked with
        | none =>
          left
          simp [handleMouseAfterSnap, hgo, hpix, hsel, hp]
        | some p =>
          by_cases hc : p.color = human_color ∧ o.turn s.boardMoves = human_color
          · left
            simp [handleMouseAfterSnap, hgo, hpix, hsel, hp, hc]
          · left
            simp [handleMouseAfterSnap, hgo, hpix, hsel, hp, hc]
      | some sel =>
        by_cases hc : constructedMove o s.boardMoves sel clicked ∈ o.legalMoves s.boardMoves ∧
            o.turn s.boardMoves = human_color
        · right
          refine ⟨sel, clicked, rfl, rfl, rfl, hc.1, hc.2, ?_⟩
          simp [handleMouseAfterSnap, hgo, hpix, hsel, hc]
        · left
          simp [handleMouseAfterSnap, hgo, hpix, hsel, hc]

lemma randomChoice_mem {i : Nat} {l : List Move} {m : Move}
    (h : randomChoice i l = some m) : m ∈ l := by
  unfold randomChoice at h
  rcases List.getElem?_eq_some.1 h with ⟨hn, he⟩
  exact he ▸ List.getElem_mem hn

lemma randomChoice_isSome {i : Nat} {l : List Move} (h : l ≠ []) :
    ∃ m, randomChoice i l = some m := by
  unfold randomChoice
  have hlen : 0 < l.length := List.length_pos.2 h
  have : i % l.length < l.length := Nat.mod_lt _ hlen
  exact ⟨l[i % l.length], List.getElem?_eq_getElem this⟩

/-- The per-frame AI check either leaves the ledger fields (history,
pointer, board) untouched, or pushes a move drawn from the legal moves of
the displayed board and clears the player-move timestamp. -/
lemma aiPhase_cases (o : Oracle) (now : ℚ) (i : Nat) (s : GameState) :
    ((aiPhase o now i s).move_history = s.move_history ∧
     (aiPhase o now i s).history_pointer = s.history_pointer ∧
     (aiPhase o now i s).boardMoves = s.boardMoves) ∨
    (∃ m, m ∈ o.legalMoves s.boardMoves ∧
      aiPhase o now i s =
        { push_move_and_record m s with
          ai_is_thinking := false
          last_player_move_time := none }) := by
  by_cases hcond : o.isGameOver s.boardMoves = false ∧ o.turn s.boardMoves ≠ human_color
  · cases hl : s.last_player_move_time with
    | none =>
      left
      simp [aiPhase, hcond, hl]
    | some t =>
      by_cases helt : 1 ≤ now - t ∧ s.ai_is_thinking = false
      · cases hch : randomChoice i (o.legalMoves s.boardMoves) with
        | none =>
          left
          simp [aiPhase, hcond, hl, helt, ai_make_move, hcond.1, hch]
        | some m =>
          right
          refine ⟨m, randomChoice_mem hch, ?_⟩
          simp [aiPhase, hcond, hl, helt, ai_make_move, hcond.1, hch]
      · left
        simp [aiPhase, hcond, hl, helt]
  · left
    simp [aiPhase, hcond]

/-- The per-frame AI check is inert when no player-move timestamp is
pending. -/
lemma aiPhase_no_pending (o : Oracle) (now : ℚ) (i : Nat) (s : GameState)
    (h : s.last_player_move_time = none) : aiPhase o now i s = s := by
  unfold aiPhase
  split
  · rw [h]
  · rfl

/-- The per-frame AI check is inert before one second has elapsed since
the pending player move. -/
lemma aiPhase_before_delay (o : Oracle) (now t : ℚ) (i : Nat) (s : GameState)
    (hl : s.last_player_move_time = some t) (h : now - t < 1) :
    aiPhase o now i s = s := by
  unfold aiPhase
  split
  · rw [hl]
    simp [not_le.2 h]
  · rfl

/-- The per-frame AI check is inert when the displayed position is
terminal. -/
lemma aiPhase_terminal (o : Oracle) (now : ℚ) (i : Nat) (s : GameState)
    (h : o.isGameOver s.boardMoves = true) : aiPhase o now i s = s := by
  unfold aiPhase
  split
  next hc => simp [h] at hc
  · rfl

lemma constructedMove_promo (o : Oracle) (b : List Move) (sel dst : Nat) :
    (constructedMove o b sel dst).promo = none ∨
    (constructedMove o b sel dst).promo = some QUEEN := by
  unfold constructedMove
  split
  · exact Or.inl rfl
  · split
    · split
      · exact Or.inr rfl
      · exact Or.inl rfl
    · exact Or.inl rfl

/-- A board click either leaves the move history unchanged or appends
exactly one move at its end. -/
lemma handleMouse_history_cases (o : Oracle) (now : ℚ) (mx my : Nat) (s : GameState) :
    (handleMouse o now mx my s).move_history = s.move_history ∨
    ∃ m, (handleMouse o now mx my s).move_history = s.move_history ++ [m] := by
  unfold handleMouse
  split
  · exact Or.inl rfl
  · set s1 := (if s.history_pointer ≠ s.move_history.length then jumpToLive s else s)
      with hs1
    have h1 : s1.move_history = s.move_history := by
      rw [hs1]; split <;> rfl
    rcases mouseAfterSnap_cases o now mx my s1 with h | ⟨sel, c, _, _, _, _, _, heq⟩
    · left
      rw [h.1, h1]
    · right
      refine ⟨constructedMove o s1.boardMoves sel c, ?_⟩
      rw [heq]
      simp [push_move_and_record, h1]

/-- After any click on the board area (my < BOARD_SIZE) the session is
live: the pointer equals the history length. -/
lemma handleMouse_live_after (o : Oracle) (now : ℚ) (mx my : Nat) (t : GameState)
    (hmy : my < BOARD_SIZE) :
    (handleMouse o now mx my t).history_pointer =
      (handleMouse o now mx my t).move_history.length := by
  unfold handleMouse
  rw [if_neg (not_le.2 hmy)]
  set s1 := (if t.history_pointer ≠ t.move_history.length then jumpToLive t else t)
    with hs1
  have hlive1 : s1.history_pointer = s1.move_history.length := by
    rw [hs1]; split
    · rfl
    · next h => exact not_ne_iff.1 h
  rcases mouseAfterSnap_cases o now mx my s1 with h | ⟨sel, c, _, _, _, _, _, heq⟩
  · rw [h.2.1, h.1]
    exact hlive1
  · rw [heq]
    simp [push_move_and_record]

/-- Claim C2: submitting a move to play from a historical view
(viewPointer < len(entries)) first snaps the view pointer to
len(entries) without altering any entry — the tail beyond the old view
pointer survives — and only then appends the new move at the end; pure
navigation (left / right / down keys) never changes the ledger
entries. -/
theorem C2_snap_then_append (o : Oracle) (now : ℚ) (s : GameState) (mx my : Nat)
    (hmy : my < BOARD_SIZE) (hhist : s.history_pointer < s.move_history.length) :
    (jumpToLive s).move_history = s.move_history ∧
    (jumpToLive s).history_pointer = s.move_history.length ∧
    handleEvent o now (Event.mouseDown mx my) s =
      handleMouseAfterSnap o now mx my (jumpToLive s) ∧
    ((handleEvent o now (Event.mouseDown mx my) s).move_history = s.move_history ∨
      ∃ m, (handleEvent o now (Event.mouseDown mx my) s).move_history =
        s.move_history ++ [m]) ∧
    (∀ e, e = Event.keyLeft ∨ e = Event.keyRight ∨ e = Event.keyDown →
      (handleEvent o now e s).move_history = s.move_history) := by
  refine ⟨rfl, rfl, ?_, ?_, ?_⟩
  · show handleMouse o now mx my s = _
    unfold handleMouse
    rw [if_neg (not_le.2 hmy), if_pos (Nat.ne_of_lt hhist)]
  · exact handleMouse_history_cases o now mx my s
  · intro e he
    rcases he with he | he | he <;> subst he
    · show (handleKeyLeft s).move_history = s.move_history
      unfold handleKeyLeft
      split <;> rfl
    · show (handleKeyRight s).move_history = s.move_history
      unfold handleKeyRight
      split <;> rfl
    · rfl

/-- Instance of C2 on a concrete reachable historical-view state. -/
theorem C2_snap_then_append_witness :
    (jumpToLive demoS6).history_pointer = demoS6.move_history.length ∧
    ((handleEvent demoOracle 5 (Event.mouseDown 0 100) demoS6).move_history =
        demoS6.move_history ∨
      ∃ m, (handleEvent demoOracle 5 (Event.mouseDown 0 100) demoS6).move_history =
        demoS6.move_history ++ [m]) := by
  have h := C2_snap_then_append demoOracle 5 demoS6 0 100 (by decide)
    (by rw [demoS6_val]; decide)
  exact ⟨h.2.1, h.2.2.2.1⟩

/-- Claim C4: a human move submission (a click on square `c` with square
`sel` selected, in a live session) whose constructed move — after the
promotion defaulting of lines 274-279 — is not legal in the current
position is a no-op with respect to the ledger: entries and view pointer
are exactly as before.  Moreover (all-or-nothing) any board click in any
state either leaves the move history unchanged or appends exactly one
move; no partial mutation exists. -/
theorem C4_illegal_submission_is_ledger_noop (o : Oracle) (now : ℚ) (s : GameState)
    (mx my sel c : Nat)
    (hlive : s.history_pointer = s.move_history.length)
    (hsel : s.selected_square = some sel)
    (hc : pixel_to_square mx my = some c)
    (hillegal : constructedMove o s.boardMoves sel c ∉ o.legalMoves s.boardMoves) :
    (handleEvent o now (Event.mouseDown mx my) s).move_history = s.move_history ∧
    (handleEvent o now (Event.mouseDown mx my) s).history_pointer =
      s.history_pointer ∧
    (∀ (t : GameState) (mx2 my2 : Nat),
      (handleEvent o now (Event.mouseDown mx2 my2) t).move_history =
        t.move_history ∨
      ∃ m, (handleEvent o now (Event.mouseDown mx2 my2) t).move_history =
        t.move_history ++ [m]) := by
  have key : (handleMouse o now mx my s).move_history = s.move_history ∧
      (handleMouse o now mx my s).history_pointer = s.history_pointer := by
    unfold handleMouse
    split
    · exact ⟨rfl, rfl⟩
    · rw [if_neg (by simp [hlive])]
      rcases mouseAfterSnap_cases o now mx my s with h | ⟨sel', c', hsel', hc', _, hmem, _, _⟩
      · exact ⟨h.1, h.2.1⟩
      · cases Option.some.inj (hsel'.symm.trans hsel)
        cases Option.some.inj (hc'.symm.trans hc)
        exact absurd hmem hillegal
  exact ⟨key.1, key.2, fun t mx2 my2 => handleMouse_history_cases o now mx2 my2 t⟩

/-- Instance of C4: with square 0 selected on the empty demo board, a
click on square 7 constructs the illegal move 0→7 and leaves the ledger
untouched. -/
theorem C4_illegal_submission_witness :
    (handleEvent demoOracle 0 (Event.mouseDown 700 700)
      (⟨[], [], 0, some 0, [⟨0, 8, none⟩], none, false⟩ : GameState)).move_history =
      [] ∧
    (handleEvent demoOracle 0 (Event.mouseDown 700 700)
      (⟨[], [], 0, some 0, [⟨0, 8, none⟩], none, false⟩ : GameState)).history_pointer
      = 0 := by
  have h := C4_illegal_submission_is_ledger_noop demoOracle 0
    (⟨[], [], 0, some 0, [⟨0, 8, none⟩], none, false⟩ : GameState)
    700 700 0 7 rfl rfl (by decide) (by decide)
  exact ⟨h.1, h.2.1⟩

lemma ledger_inv_event (o : Oracle) (now : ℚ) (e : Event) (s : GameState)
    (hinv : s.history_pointer ≤ s.move_history.length) :
    (handleEvent o now e s).history_pointer ≤
      (handleEvent o now e s).move_history.length := by
  cases e with
  | keyLeft =>
    show (handleKeyLeft s).history_pointer ≤ (handleKeyLeft s).move_history.length
    unfold handleKeyLeft
    split
    · simp only [update_board_from_history]
      omega
    · exact hinv
  | keyRight =>
    show (handleKeyRight s).history_pointer ≤ (handleKeyRight s).move_history.length
    unfold handleKeyRight
    split
    · next h =>
      simp only [update_board_from_history]
      omega
    · exact hinv
  | keyDown => exact Nat.le_refl _
  | keyReset => exact Nat.le_refl _
  | mouseDown mx my =>
    show (handleMouse o now mx my s).history_pointer ≤
      (handleMouse o now mx my s).move_history.length
    unfold handleMouse
    split
    · exact hinv
    · set s1 := (if s.history_pointer ≠ s.move_history.length then jumpToLive s else s)
        with hs1
      have hinv1 : s1.history_pointer ≤ s1.move_history.length := by
        rw [hs1]; split
        · exact Nat.le_refl _
        · exact hinv
      rcases mouseAfterSnap_cases o now mx my s1 with h | ⟨sel, c, _, _, _, _, _, heq⟩
      · rw [h.2.1, h.1]
        exact hinv1
      · rw [heq]
        simp [push_move_and_record]

lemma ledger_inv_aiPhase (o : Oracle) (now : ℚ) (i : Nat) (s : GameState)
    (hinv : s.history_pointer ≤ s.move_history.length) :
    (aiPhase o now i s).history_pointer ≤ (aiPhase o now i s).move_history.length := by
  rcases aiPhase_cases o now i s with h | ⟨m, _, heq⟩
  · rw [h.2.1, h.1]
    exact hinv
  · rw [heq]
    simp [push_move_and_record]

/-- Claim C5: the invariant 0 ≤ viewPointer ≤ len(entries) is preserved
by every event handler and by the per-frame AI check; stepping back
decrements exactly when the pointer is positive and is a non-failing
no-op at 0; stepping forward increments exactly when the pointer is below
the length and is a no-op when live; jumping to live and appending leave
the pointer equal to the (new) history length; reset returns pointer 0 on
an empty ledger.  All operations are total functions — none throws. -/
theorem C5_view_pointer_invariant (o : Oracle) (now : ℚ) (i : Nat) (e : Event)
    (s : GameState) (hinv : s.history_pointer ≤ s.move_history.length) :
    (handleEvent o now e s).history_pointer ≤
      (handleEvent o now e s).move_history.length ∧
    (aiPhase o now i s).history_pointer ≤ (aiPhase o now i s).move_history.length ∧
    (s.history_pointer = 0 → handleKeyLeft s = s) ∧
    (s.history_pointer = s.move_history.length → handleKeyRight s = s) ∧
    (0 < s.history_pointer →
      (handleKeyLeft s).history_pointer = s.history_pointer - 1 ∧
      (handleKeyLeft s).move_history = s.move_history) ∧
    (s.history_pointer < s.move_history.length →
      (handleKeyRight s).history_pointer = s.history_pointer + 1 ∧
      (handleKeyRight s).move_history = s.move_history) ∧
    (jumpToLive s).history_pointer = (jumpToLive s).move_history.length ∧
    (∀ m, (push_move_and_record m s).history_pointer =
      (push_move_and_record m s).move_history.length) ∧
    (handleReset s).history_pointer = 0 ∧ (handleReset s).move_history = [] := by
  refine ⟨ledger_inv_event o now e s hinv, ledger_inv_aiPhase o now i s hinv,
    ?_, ?_, ?_, ?_, rfl, ?_, rfl, rfl⟩
  · intro h0
    unfold handleKeyLeft
    rw [if_neg (by omega)]
  · intro hlive
    unfold handleKeyRight
    rw [if_neg (by omega)]
  · intro hpos
    unfold handleKeyLeft
    rw [if_pos hpos]
    exact ⟨rfl, rfl⟩
  · intro hlt
    unfold handleKeyRight
    rw [if_pos hlt]
    exact ⟨rfl, rfl⟩
  · intro m
    simp [push_move_and_record]

/-- Instance of C5 on a concrete state: the invariant holds after a
left-arrow press and after the AI frame check on the reachable state
demoS5, and stepping back from the live pointer 3 yields pointer 2. -/
theorem C5_view_pointer_invariant_witness :
    (handleEvent demoOracle 1 Event.keyLeft demoS5).history_pointer ≤
      (handleEvent demoOracle 1 Event.keyLeft demoS5).move_history.length ∧
    (handleKeyLeft demoS5).history_pointer = demoS5.history_pointer - 1 := by
  have h := C5_view_pointer_invariant demoOracle 1 0 Event.keyLeft demoS5
    (by rw [demoS5_val]; decide)
  exact ⟨h.1, (h.2.2.2.2.1 (by rw [demoS5_val]; decide)).1⟩

/-- Claim C6: after reset (the R key), in any state, the ledger is empty,
the view pointer is 0, the side to move on the rebuilt board is the human
side, the position is not terminal (hypotheses h1, h2 record what
python-chess guarantees about the initial position), and the pending
player-move timestamp is cleared; reset is the only event that destroys
ledger entries (every other event only extends the history); and the AI
frame check never moves while no player-move timestamp is pending, so no
previously pending deliberation produces an engine move after reset. -/
theorem C6_reset_clears_session (o : Oracle) (now : ℚ) (s : GameState)
    (h1 : o.isGameOver [] = false) (h2 : o.turn [] = human_color) :
    (handleReset s).move_history = [] ∧
    (handleReset s).history_pointer = 0 ∧
    o.turn (handleReset s).boardMoves = human_color ∧
    o.isGameOver (handleReset s).boardMoves = false ∧
    (handleReset s).last_player_move_time = none ∧
    (∀ (e : Event) (t : GameState), e ≠ Event.keyReset →
      ∃ l2, (handleEvent o now e t).move_history = t.move_history ++ l2) ∧
    (∀ (i : Nat) (t : GameState), t.last_player_move_time = none →
      aiPhase o now i t = t) := by
  refine ⟨rfl, rfl, h2, h1, rfl, ?_, fun i t ht => aiPhase_no_pending o now i t ht⟩
  intro e t he
  cases e with
  | keyLeft =>
    refine ⟨[], ?_⟩
    show (handleKeyLeft t).move_history = _
    unfold handleKeyLeft
    split <;> simp [update_board_from_history]
  | keyRight =>
    refine ⟨[], ?_⟩
    show (handleKeyRight t).move_history = _
    unfold handleKeyRight
    split <;> simp [update_board_from_history]
  | keyDown =>
    exact ⟨[], by simp [handleEvent, jumpToLive, update_board_from_history]⟩
  | keyReset => exact absurd rfl he
  | mouseDown mx my =>
    rcases handleMouse_history_cases o now mx my t with h | ⟨m, h⟩
    · exact ⟨[], by simpa using h⟩
    · exact ⟨[m], h⟩

/-- Instance of C6 on a concrete dirty state. -/
theorem C6_reset_clears_session_witness :
    (handleReset ⟨[⟨0, 8, none⟩], [⟨0, 8, none⟩], 1, some 3, [], some 7, false⟩
      ).move_history = [] ∧
    (handleReset ⟨[⟨0, 8, none⟩], [⟨0, 8, none⟩], 1, some 3, [], some 7, false⟩
      ).history_pointer = 0 ∧
    demoOracle.turn (handleReset
      ⟨[⟨0, 8, none⟩], [⟨0, 8, none⟩], 1, some 3, [], some 7, false⟩).boardMoves =
      human_color ∧
    (handleReset ⟨[⟨0, 8, none⟩], [⟨0, 8, none⟩], 1, some 3, [], some 7, false⟩
      ).last_player_move_time = none := by
  have h := C6_reset_clears_session demoOracle 0
    (⟨[⟨0, 8, none⟩], [⟨0, 8, none⟩], 1, some 3, [], some 7, false⟩ : GameState)
    (by decide) (by decide)
  exact ⟨h.1, h.2.1, h.2.2.1, h.2.2.2.2.1⟩

/-- Claim C7: the configured difficulty is an integer clamped into
[1, 20], defaulting to 5 on empty or invalid input, and the deliberation
budget is T(d) = max(0.05, 0.05 + 0.07 d) seconds; in particular d = 1
yields 0.12 s and d = 20 yields 1.45 s. -/
theorem C7_difficulty_clamp_and_budget :
    (∀ raw : Option Int, 1 ≤ readLevel raw ∧ readLevel raw ≤ 20) ∧
    readLevel none = 5 ∧
    (∀ lvl : Int, time_per_move lvl =
      max (5 / 100 : ℚ) ((5 / 100 : ℚ) + (lvl : ℚ) * (7 / 100 : ℚ))) ∧
    time_per_move (readLevel (some 1)) = 12 / 100 ∧
    time_per_move (readLevel (some 20)) = 145 / 100 := by
  refine ⟨?_, by decide, fun lvl => rfl, ?_, ?_⟩
  · intro raw
    cases raw <;> constructor <;>
    · simp only [readLevel, clampLevel]
      omega
  · have h1 : readLevel (some 1) = 1 := by decide
    rw [h1, time_per_move]
    rw [max_eq_right (by norm_num)]
    norm_num
  · have h20 : readLevel (some 20) = 20 := by decide
    rw [h20, time_per_move]
    rw [max_eq_right (by norm_num)]
    norm_num

/-- Any move a board click appends to the history is a constructed move,
whose promotion field is either absent or a queen promotion. -/
lemma handleMouse_append_promo (o : Oracle) (now : ℚ) (mx my : Nat) (t : GameState)
    (m : Move)
    (h : (handleMouse o now mx my t).move_history = t.move_history ++ [m]) :
    m.promo = none ∨ m.promo = some QUEEN := by
  unfold handleMouse at h
  by_cases hB : my ≥ BOARD_SIZE
  · rw [if_pos hB] at h
    exact absurd h (by simp)
  · rw [if_neg hB] at h
    set s1 := (if t.history_pointer ≠ t.move_history.length then jumpToLive t else t)
      with hs1
    have h1 : s1.move_history = t.move_history := by
      rw [hs1]; split <;> rfl
    rcases mouseAfterSnap_cases o now mx my s1 with hcase | ⟨sel, c, _, _, _, _, _, heq⟩
    · rw [hcase.1, h1] at h
      exact absurd h (by simp)
    · rw [heq] at h
      have h3 : s1.move_history ++ [constructedMove o s1.boardMoves sel c] =
          t.move_history ++ [m] := h
      rw [h1] at h3
      have hm := List.append_cancel_left h3
      injection hm with hh _
      rw [← hh]
      exact constructedMove_promo o s1.boardMoves sel c

/-- Claim C8: when the bare (from, to) move of a human submission is not
legal, the origin square holds a pawn, and the same move with queen
promotion is legal, the queen promotion is the move that gets appended;
and in general no move a board click ever appends carries a promotion
other than queen — no under-promotion is ever produced on the human
side. -/
theorem C8_queen_promotion_default (o : Oracle) (now : ℚ) (s : GameState)
    (mx my sel c : Nat)
    (hmy : my < BOARD_SIZE)
    (hlive : s.history_pointer = s.move_history.length)
    (hgo : o.isGameOver s.boardMoves = false)
    (hsel : s.selected_square = some sel)
    (hc : pixel_to_square mx my = some c)
    (hbare : (⟨sel, c, none⟩ : Move) ∉ o.legalMoves s.boardMoves)
    (hpawn : ∃ p, o.pieceAt s.boardMoves sel = some p ∧ p.piece_type = PAWN)
    (hq : (⟨sel, c, some QUEEN⟩ : Move) ∈ o.legalMoves s.boardMoves)
    (hturn : o.turn s.boardMoves = human_color) :
    constructedMove o s.boardMoves sel c = ⟨sel, c, some QUEEN⟩ ∧
    (handleEvent o now (Event.mouseDown mx my) s).move_history =
      s.move_history ++ [⟨sel, c, some QUEEN⟩] ∧
    (∀ (t : GameState) (mx2 my2 : Nat) (m : Move),
      (handleEvent o now (Event.mouseDown mx2 my2) t).move_history =
        t.move_history ++ [m] →
      m.promo = none ∨ m.promo = some QUEEN) := by
  obtain ⟨p, hp, hpt⟩ := hpawn
  have hcm : constructedMove o s.boardMoves sel c = ⟨sel, c, some QUEEN⟩ := by
    unfold constructedMove
    rw [if_neg hbare]
    simp only [hp]
    rw [if_pos ⟨hpt, hq⟩]
  refine ⟨hcm, ?_, fun t mx2 my2 m h => handleMouse_append_promo o now mx2 my2 t m h⟩
  show (handleMouse o now mx my s).move_history = _
  unfold handleMouse
  rw [if_neg (not_le.2 hmy), if_neg (by simp [hlive])]
  unfold handleMouseAfterSnap
  simp only [hgo, hc, hsel, Bool.false_eq_true, if_false]
  rw [if_pos ⟨(by rw [hcm]; exact hq :
    constructedMove o s.boardMoves sel c ∈ o.legalMoves s.boardMoves), hturn⟩]
  simp [push_move_and_record, hcm]

/-- An oracle triggering the promotion default: the only legal move is
the queen promotion 8→0, square 8 holds a white pawn, and it is White to
move. -/
def promoOracle : Oracle :=
  { isGameOver := fun _ => false
    legalMoves := fun _ => [⟨8, 0, some QUEEN⟩]
    turn := fun _ => Side.white
    pieceAt := fun _ sq => if sq = 8 then some ⟨PAWN, Side.white⟩ else none }

/-- Instance of C8: with the pawn square 8 selected, a click on square 0
(pixel (0, 700)) appends the queen promotion. -/
theorem C8_queen_promotion_default_witness :
    constructedMove promoOracle [] 8 0 = ⟨8, 0, some QUEEN⟩ ∧
    (handleEvent promoOracle 0 (Event.mouseDown 0 700)
      (⟨[], [], 0, some 8, [], none, false⟩ : GameState)).move_history =
      [] ++ [⟨8, 0, some QUEEN⟩] := by
  have h := C8_queen_promotion_default promoOracle 0
    (⟨[], [], 0, some 8, [], none, false⟩ : GameState) 0 700 8 0
    (by decide) rfl rfl rfl (by decide) (by decide)
    ⟨⟨PAWN, Side.white⟩, by decide, rfl⟩ (by decide) rfl
  exact ⟨h.1, h.2.1⟩

/-- Claim C9: requesting an AI move while the displayed position is
terminal is a no-op that changes neither board nor ledger (the whole
state is returned unchanged); when it is not terminal, under the oracle
guarantee that a non-terminal position has at least one legal move, the
random-fallback selection always succeeds — the empty-list (IndexError)
branch is unreachable — and the move is pushed. -/
theorem C9_terminal_noop_and_fallback_total (o : Oracle) (i : Nat) (s : GameState)
    (hne : ∀ p, o.isGameOver p = false → o.legalMoves p ≠ []) :
    (o.isGameOver s.boardMoves = true → ai_make_move o i s = s) ∧
    (o.isGameOver s.boardMoves = false →
      ∃ m, randomChoice i (o.legalMoves s.boardMoves) = some m ∧
        ai_make_move o i s =
          { push_move_and_record m s with ai_is_thinking := false }) := by
  constructor
  · intro h
    unfold ai_make_move
    rw [if_pos h]
  · intro h
    obtain ⟨m, hm⟩ := @randomChoice_isSome i (o.legalMoves s.boardMoves) (hne _ h)
    refine ⟨m, hm, ?_⟩
    unfold ai_make_move
    rw [if_neg (by simp [h]), hm]

/-- An oracle for a terminal position: the game is over everywhere. -/
def overOracle : Oracle :=
  { isGameOver := fun _ => true
    legalMoves := fun _ => []
    turn := fun _ => Side.white
    pieceAt := fun _ _ => none }

/-- Instance of C9: on a terminal position the AI request leaves the
state untouched. -/
theorem C9_terminal_noop_witness :
    ai_make_move overOracle 0 initialState = initialState :=
  (C9_terminal_noop_and_fallback_total overOracle 0 initialState
    (fun p h => by simp [overOracle] at h)).1 rfl

/-- Claim C10: every mouse click inside the board area (my < BOARD_SIZE)
while the session is in a historical view snaps the view pointer to the
history length and rebuilds the displayed board by replaying the full
ledger; existing entries always survive; when nothing was selected — in
particular when the click selects no piece and produces no move — the
entries are exactly unchanged; and after any board click, from any state,
the session is live. -/
theorem C10_board_click_snaps_to_live (o : Oracle) (now : ℚ) (s : GameState)
    (mx my : Nat) (hmy : my < BOARD_SIZE)
    (hhist : s.history_pointer < s.move_history.length) :
    (handleEvent o now (Event.mouseDown mx my) s).history_pointer =
      (handleEvent o now (Event.mouseDown mx my) s).move_history.length ∧
    (handleEvent o now (Event.mouseDown mx my) s).boardMoves =
      (handleEvent o now (Event.mouseDown mx my) s).move_history ∧
    (∃ l2, (handleEvent o now (Event.mouseDown mx my) s).move_history =
      s.move_history ++ l2) ∧
    (s.selected_square = none →
      (handleEvent o now (Event.mouseDown mx my) s).move_history =
        s.move_history ∧
      (handleEvent o now (Event.mouseDown mx my) s).history_pointer =
        s.move_history.length ∧
      (handleEvent o now (Event.mouseDown mx my) s).boardMoves = s.move_history) ∧
    (∀ t : GameState,
      (handleEvent o now (Event.mouseDown mx my) t).history_pointer =
        (handleEvent o now (Event.mouseDown mx my) t).move_history.length) := by
  have hsnap : (if s.history_pointer ≠ s.move_history.length then jumpToLive s else s)
      = jumpToLive s := if_pos (Nat.ne_of_lt hhist)
  have hred : handleEvent o now (Event.mouseDown mx my) s =
      handleMouseAfterSnap o now mx my (jumpToLive s) := by
    show handleMouse o now mx my s = _
    unfold handleMouse
    rw [if_neg (not_le.2 hmy), hsnap]
  refine ⟨handleMouse_live_after o now mx my s hmy, ?_, ?_, ?_,
    fun t => handleMouse_live_after o now mx my t hmy⟩
  · rw [hred]
    rcases mouseAfterSnap_cases o now mx my (jumpToLive s) with h | ⟨sel, c, _, _, _, _, _, heq⟩
    · rw [h.1, h.2.2, jumpToLive_board, jumpToLive_history]
    · rw [heq]
      simp [push_move_and_record, jumpToLive_board, jumpToLive_history]
  · rw [hred]
    rcases mouseAfterSnap_cases o now mx my (jumpToLive s) with h | ⟨sel, c, _, _, _, _, _, heq⟩
    · exact ⟨[], by rw [h.1, jumpToLive_history, List.append_nil]⟩
    · refine ⟨[constructedMove o (jumpToLive s).boardMoves sel c], ?_⟩
      rw [heq]
      simp [push_move_and_record, jumpToLive_history]
  · intro hnone
    rw [hred]
    rcases mouseAfterSnap_cases o now mx my (jumpToLive s) with h | ⟨sel, c, hsel, _, _, _, _, _⟩
    · exact ⟨by rw [h.1, jumpToLive_history],
        by rw [h.2.1, jumpToLive_pointer],
        by rw [h.2.2, jumpToLive_board]⟩
    · rw [jumpToLive_selected, hnone] at hsel
      exact absurd hsel (by simp)

/-- Instance of C10 on the reachable historical-view state demoS6: a
click on pixel (0, 100) with nothing selected leaves entries unchanged,
goes live, and rebuilds the board as the full ledger. -/
theorem C10_board_click_snaps_to_live_witness :
    (handleEvent demoOracle 9 (Event.mouseDown 0 100) demoS6).history_pointer =
      (handleEvent demoOracle 9 (Event.mouseDown 0 100) demoS6).move_history.length ∧
    (handleEvent demoOracle 9 (Event.mouseDown 0 100) demoS6).move_history =
      demoS6.move_history := by
  have h := C10_board_click_snaps_to_live demoOracle 9 demoS6 0 100 (by decide)
    (by rw [demoS6_val]; decide)
  exact ⟨h.1, (h.2.2.2.1 (by rw [demoS6_val])).1⟩
